import Mathlib

/-!
# Verification of the Auth_Backend session/credential lifecycle engine

Shallow embedding of the core operations of the repository:
`app/core/security.py` (token codec), `app/services/auth_service.py`
(session manager), `app/services/two_factor_service.py` (TOTP state
machine), `app/services/oauth_service.py` (identity linking) and the
`app/api/v1` handlers that classify their outcomes.

Modelling conventions:
- Wall-clock time is a `Nat` of seconds; every operation that reads the
  clock takes `now : Nat` explicitly.
- A JWT is either `RawToken.signed p` (signed with the process key,
  carrying the claims `sub`/`exp`/`type`, any of which may be absent) or
  `RawToken.malformed s` (anything the signature check rejects).
- `sha256` digests of raw token strings are modelled as an injective
  wrapper `TokenHash` around the token (an idealised collision-free hash;
  HS256 JWT encoding is deterministic and injective on the claims).
- The relational store is a `DB` of in-memory lists.  Columns declared
  `unique` in the schema (`refresh_tokens.token_hash`, `users.email`)
  make duplicate rows unreachable; single-row lookups
  (`scalar_one_or_none`) are modelled by first-match search, and the
  uniqueness constraint on inserts is modelled explicitly (a violating
  `commit` raises, modelled as a `fatal` outcome).
-/

namespace AuthBackend

/-! ## Configuration (`app/config.py` defaults) -/

/-- `ACCESS_TOKEN_EXPIRE_MINUTES = 30` from `app/config.py`. -/
def ACCESS_TOKEN_EXPIRE_MINUTES : Nat := 30

/-- `REFRESH_TOKEN_EXPIRE_DAYS = 7` from `app/config.py`. -/
def REFRESH_TOKEN_EXPIRE_DAYS : Nat := 7

/-- Default access-token lifetime in seconds. -/
def accessTtl : Nat := ACCESS_TOKEN_EXPIRE_MINUTES * 60

/-- Default refresh-token lifetime in seconds. -/
def refreshTtl : Nat := REFRESH_TOKEN_EXPIRE_DAYS * 86400

/-! ## Token codec (`app/core/security.py`) -/

/-- The claims set of a JWT payload.  python-jose imposes no required
claims, so each of `sub`, `exp`, `type` may be absent. -/
structure Payload where
  sub : Option String
  exp : Option Nat
  typ : Option String
deriving DecidableEq, Repr

/-- A raw bearer-token string: either a JWT signed with the process
`SECRET_KEY` (identified by its payload), or anything else — a string
that fails signature verification or JWT parsing. -/
inductive RawToken where
  | signed (p : Payload)
  | malformed (s : String)
deriving DecidableEq, Repr

/-- `decode_token` (security.py lines 78-89): `jose.jwt.decode` verifies
the signature, and checks expiry only when an `exp` claim is present
(`ExpiredSignatureError` iff `exp < now`); no claim is required to be
present.  Returns the payload on success, `none` on `JWTError`. -/
def decode_token (t : RawToken) (now : Nat) : Option Payload :=
  match t with
  | .malformed _ => none
  | .signed p =>
    match p.exp with
    | some e => if e < now then none else some p
    | none => some p

/-- `create_access_token` (security.py lines 33-54).  The Python guard
`if expires_delta:` is falsy for a zero timedelta, so both `none` and
`some 0` fall back to the configured default. -/
def create_access_token (subject : String) (now : Nat) (expires_delta : Option Nat) : RawToken :=
  match expires_delta with
  | some d => if d ≠ 0 then .signed ⟨some subject, some (now + d), some "access"⟩
              else .signed ⟨some subject, some (now + accessTtl), some "access"⟩
  | none => .signed ⟨some subject, some (now + accessTtl), some "access"⟩

/-- `create_refresh_token` (security.py lines 57-75). -/
def create_refresh_token (subject : String) (now : Nat) (expires_delta : Option Nat) : RawToken :=
  match expires_delta with
  | some d => if d ≠ 0 then .signed ⟨some subject, some (now + d), some "refresh"⟩
              else .signed ⟨some subject, some (now + refreshTtl), some "refresh"⟩
  | none => .signed ⟨some subject, some (now + refreshTtl), some "refresh"⟩

/-- Token kinds of the spec's `mint(subject, kind, ttl)`. -/
inductive TokenKind where
  | access
  | refresh
deriving DecidableEq, Repr

/-- The `type` claim string of a kind. -/
def TokenKind.claim : TokenKind → String
  | .access => "access"
  | .refresh => "refresh"

/-- The spec's `mint(subject, kind, ttl)`, dispatching to the two
constructors of security.py with an explicit `expires_delta`. -/
def mint (subject : String) (kind : TokenKind) (now ttl : Nat) : RawToken :=
  match kind with
  | .access => create_access_token subject now (some ttl)
  | .refresh => create_refresh_token subject now (some ttl)

/-- The expiry instant a token actually carries (0 for tokens without an
`exp` claim). -/
def tokenExp : RawToken → Nat
  | .signed p => p.exp.getD 0
  | .malformed _ => 0

/-- Python's `str(x)` as applied to a decoded `sub` claim:
`str(None) = "None"`, strings map to themselves.  `refresh_access_token`
passes `payload.get("sub")` straight into the token constructors, which
call `str(subject)`. -/
def pyStr : Option String → String
  | some s => s
  | none => "None"

/-! ## Data model (`app/models/*.py`) -/

/-- `_hash_token` (auth_service.py lines 20-22): the sha256 hex digest of
the raw token string, used as the storage key.  Modelled as an injective
wrapper (an idealised collision-free digest). -/
structure TokenHash where
  digest : RawToken
deriving DecidableEq, Repr

/-- `_hash_token(token)`. -/
def hash_token (t : RawToken) : TokenHash := ⟨t⟩

/-- A row of `users` (models/user.py). -/
structure User where
  id : String
  email : String
  hashed_password : Option String
  is_active : Bool
  is_verified : Bool
  two_factor_enabled : Bool
  two_factor_secret : Option String
deriving DecidableEq, Repr

/-- A row of `refresh_tokens` (models/token.py); `token_hash` carries a
`unique=True` index. -/
structure RefreshTokenRecord where
  user_id : String
  token_hash : TokenHash
  expires_at : Nat
  revoked : Bool
deriving DecidableEq, Repr

/-- A row of `oauth_accounts` (models/oauth.py). -/
structure OAuthAccount where
  user_id : String
  provider : String
  provider_user_id : String
deriving DecidableEq, Repr

/-- The relational store. -/
structure DB where
  users : List User
  refresh_tokens : List RefreshTokenRecord
  oauth_accounts : List OAuthAccount
deriving DecidableEq, Repr

/-- Is some stored record keyed by this hash?  Used to model the
`unique=True` constraint on `refresh_tokens.token_hash`: an insert whose
hash is already present makes `commit` raise `IntegrityError`. -/
def hashExists (toks : List RefreshTokenRecord) (h : TokenHash) : Bool :=
  toks.any (fun r => r.token_hash == h)

/-- `key`-distinctness of a list of rows — the well-formedness that the
store's unique indexes guarantee for every reachable state. -/
def distinctBy {α β : Type} [BEq β] (key : α → β) : List α → Bool
  | [] => true
  | x :: xs => !(xs.any (fun y => key y == key x)) && distinctBy key xs

/-- Find the first row satisfying `p`, apply `f` to it in place, and
return the matched row together with the updated table; `none` when no
row matches.  This models `scalar_one_or_none` followed by an in-place
mutation of the returned ORM object (the store's unique indexes make a
multi-row match unreachable). -/
def updateFirst {α : Type} (p : α → Bool) (f : α → α) : List α → Option (α × List α)
  | [] => none
  | x :: xs =>
    if p x then some (x, f x :: xs)
    else match updateFirst p f xs with
      | none => none
      | some (a, ys) => some (a, x :: ys)

/-! ## Session manager (`app/services/auth_service.py`) -/

/-- Outcome of `create_tokens` (auth_service.py lines 45-72): a token
pair plus the updated store, or a fatal `IntegrityError` raised by
`commit` when the new record's `token_hash` collides with a stored one. -/
inductive IssueResult where
  | fatal
  | ok (db : DB) (access_token refresh_token : RawToken)
deriving DecidableEq, Repr

/-- `create_tokens` (auth_service.py lines 45-72). -/
def create_tokens (db : DB) (u : User) (now : Nat) : IssueResult :=
  let access_token := create_access_token u.id now none
  let refresh_token := create_refresh_token u.id now none
  let record : RefreshTokenRecord :=
    ⟨u.id, hash_token refresh_token, now + refreshTtl, false⟩
  if hashExists db.refresh_tokens record.token_hash then .fatal
  else .ok { db with refresh_tokens := db.refresh_tokens ++ [record] } access_token refresh_token

/-- Outcome of `refresh_access_token`: `invalid` is the function's
`None` return, `fatal` the `IntegrityError` raised by `commit` on a
`token_hash` collision, `ok` the new-token dict plus updated store. -/
inductive RotateResult where
  | invalid
  | fatal
  | ok (db : DB) (access_token refresh_token : RawToken)
deriving DecidableEq, Repr

/-- `refresh_access_token` (auth_service.py lines 75-126): decode, check
`type == "refresh"`, look up the record by hash among non-revoked rows,
check its persisted expiry, mark it revoked, mint and persist a fresh
pair.  `user_id = payload.get("sub")` may be Python `None`: the token
constructors apply `str()` to it (minting tokens for subject `"None"`),
but the new row's `user_id` column is NOT NULL (models/token.py line
20), so with `sub` missing `commit` raises `IntegrityError` — modelled,
like the unique-index violation, as the `fatal` outcome. -/
def refresh_access_token (db : DB) (t : RawToken) (now : Nat) : RotateResult :=
  match decode_token t now with
  | none => .invalid
  | some payload =>
    if payload.typ ≠ some "refresh" then .invalid
    else
      let h := hash_token t
      match updateFirst (fun r => r.token_hash == h && !r.revoked)
          (fun r => { r with revoked := true }) db.refresh_tokens with
      | none => .invalid
      | some (db_token, updated) =>
        if db_token.expires_at < now then .invalid
        else
          let access_token := create_access_token (pyStr payload.sub) now none
          let new_refresh_token := create_refresh_token (pyStr payload.sub) now none
          match payload.sub with
          | none => .fatal
          | some user_id =>
            let new_record : RefreshTokenRecord :=
              ⟨user_id, hash_token new_refresh_token, now + refreshTtl, false⟩
            if hashExists updated new_record.token_hash then .fatal
            else .ok { db with refresh_tokens := updated ++ [new_record] }
                access_token new_refresh_token

/-- Replace the user and OAuth tables carried inside a successful
rotation outcome; used to state that rotation's behaviour depends only
on the refresh-token table. -/
def RotateResult.substEnv (us : List User) (oa : List OAuthAccount) : RotateResult → RotateResult
  | .ok db a r => .ok ⟨us, db.refresh_tokens, oa⟩ a r
  | x => x

/-- `revoke_refresh_token` (auth_service.py lines 129-144): looks the
record up by hash only — with no filter on `revoked` — marks it revoked
and returns `true`; returns `false` when no record matches the hash. -/
def revoke_refresh_token (db : DB) (t : RawToken) : Bool × DB :=
  match updateFirst (fun r => r.token_hash == hash_token t)
      (fun r => { r with revoked := true }) db.refresh_tokens with
  | none => (false, db)
  | some (_, updated) => (true, { db with refresh_tokens := updated })

/-- `get_user_from_token` (auth_service.py lines 182-200): decode,
require `type == "access"` and a present `sub`, then look the user up by
id. -/
def get_user_from_token (db : DB) (t : RawToken) (now : Nat) : Option User :=
  match decode_token t now with
  | none => none
  | some payload =>
    if payload.typ ≠ some "access" then none
    else
      match payload.sub with
      | none => none
      | some user_id => db.users.find? (fun u => u.id == user_id)

/-- `authenticate_user` (auth_service.py lines 25-42).  Password
verification (`verify_password`, a bcrypt check) is a pure collaborator,
passed in as `verify plain hashed`. -/
def authenticate_user (verify : String → String → Bool) (db : DB)
    (email password : String) : Option User :=
  match db.users.find? (fun u => u.email == email) with
  | none => none
  | some u =>
    match u.hashed_password with
    | none => none
    | some h => if verify password h then some u else none

/-- Outcome of the `/login` handler (api/v1/auth.py lines 59-96). -/
inductive LoginResult where
  | invalidCredentials
  | accountDeactivated
  | requires2fa (user_id : String)
  | fatal
  | tokens (db : DB) (access_token refresh_token : RawToken)
deriving DecidableEq, Repr

/-- The `/login` handler (api/v1/auth.py lines 59-96): authenticate,
then the `is_active` gate, then the 2FA branch, else issue tokens. -/
def login (verify : String → String → Bool) (db : DB)
    (email password : String) (now : Nat) : LoginResult :=
  match authenticate_user verify db email password with
  | none => .invalidCredentials
  | some u =>
    if !u.is_active then .accountDeactivated
    else if u.two_factor_enabled then .requires2fa u.id
    else
      match create_tokens db u now with
      | .fatal => .fatal
      | .ok db2 a r => .tokens db2 a r

/-! ## Two-factor state machine (`app/services/two_factor_service.py`)

TOTP secret generation and code verification are pure collaborators
(`app/core/two_factor.py`, delegating to pyotp); they are passed in as
the fresh secret string and a `verify_totp secret code` predicate. -/

/-- Outcome of `setup_2fa` (two_factor_service.py lines 12-47): the
`ValueError("2FA is already enabled")`, or the returned secret. -/
inductive SetupResult where
  | alreadyEnabled
  | ok (secret : String)
deriving DecidableEq, Repr

/-- `setup_2fa` (two_factor_service.py lines 12-47): rejects only when
`two_factor_enabled` is already true; otherwise stores a freshly
generated secret on the user (overwriting any previous one) and returns
it.  The second component is the user row after the call. -/
def setup_2fa (freshSecret : String) (u : User) : SetupResult × User :=
  if u.two_factor_enabled then (.alreadyEnabled, u)
  else (.ok freshSecret, { u with two_factor_secret := some freshSecret })

/-- Outcome of `enable_2fa` (two_factor_service.py lines 50-82): the
three `ValueError`s, or success. -/
inductive ConfirmResult where
  | alreadyEnabled
  | notStarted
  | invalidCode
  | ok
deriving DecidableEq, Repr

/-- `enable_2fa` (two_factor_service.py lines 50-82): reject if already
enabled, then if no secret is stored, then if the code fails TOTP
verification; otherwise set `two_factor_enabled := true` (the secret is
kept).  The second component is the user row after the call. -/
def enable_2fa (verify_totp : String → String → Bool) (u : User)
    (code : String) : ConfirmResult × User :=
  if u.two_factor_enabled then (.alreadyEnabled, u)
  else
    match u.two_factor_secret with
    | none => (.notStarted, u)
    | some secret =>
      if !verify_totp secret code then (.invalidCode, u)
      else (.ok, { u with two_factor_enabled := true })

/-! ## Identity linking (`app/services/oauth_service.py`) -/

/-- Outcome of `get_or_create_oauth_user`: the resolved user plus the
updated store.  `fatal` is `scalar_one()` raising when an OAuth link
points at a missing user row (unreachable under the store's foreign-key
integrity). -/
inductive OAuthResult where
  | fatal
  | ok (u : User) (db : DB)
deriving DecidableEq, Repr

/-- `get_or_create_oauth_user` (oauth_service.py lines 95-165): resolve
through an existing `(provider, provider_user_id)` link, else link an
existing user found by email, else create a new user (no password,
`is_verified=true`, column defaults `is_active=true`, 2FA off) together
with the link.  `freshId` is the uuid4 generated for the new user row. -/
def get_or_create_oauth_user (db : DB) (provider provider_user_id email : String)
    (freshId : String) : OAuthResult :=
  match db.oauth_accounts.find?
      (fun a => a.provider == provider && a.provider_user_id == provider_user_id) with
  | some oauth_account =>
    match db.users.find? (fun u => u.id == oauth_account.user_id) with
    | some u => .ok u db
    | none => .fatal
  | none =>
    match db.users.find? (fun u => u.email == email) with
    | some u =>
      .ok u { db with oauth_accounts :=
                db.oauth_accounts ++ [⟨u.id, provider, provider_user_id⟩] }
    | none =>
      let newUser : User := ⟨freshId, email, none, true, true, false, none⟩
      .ok newUser
        { db with
            users := db.users ++ [newUser],
            oauth_accounts := db.oauth_accounts ++ [⟨freshId, provider, provider_user_id⟩] }

/-- The spec's failure condition for `rotateRefreshToken`, written from
the claim's words: the token fails signature/expiry decoding, its
decoded kind is not `refresh`, no stored record matches its hash, the
matching record is already revoked, or the matching record's persisted
expiry is in the past. -/
def rotateRejectSpec (db : DB) (t : RawToken) (now : Nat) : Bool :=
  match decode_token t now with
  | none => true
  | some payload =>
    payload.typ != some "refresh" ||
    db.refresh_tokens.all (fun r => !(r.token_hash == hash_token t)) ||
    db.refresh_tokens.any (fun r => r.token_hash == hash_token t && r.revoked) ||
    db.refresh_tokens.any
      (fun r => r.token_hash == hash_token t && !r.revoked && decide (r.expires_at < now))

/-- Does the refresh token that a rotation at `now` would freshly mint
already have its hash stored?  When it does, the rotation's insert
violates the unique index on `token_hash` and `commit` raises instead
of succeeding. -/
def freshCollision (db : DB) (t : RawToken) (now : Nat) : Bool :=
  match decode_token t now with
  | none => false
  | some payload =>
    hashExists db.refresh_tokens (hash_token (create_refresh_token (pyStr payload.sub) now none))

/-- Does the token decode to a payload with no `sub` claim?  A rotation
of such a token inserts a NULL `user_id` into a NOT NULL column, so
`commit` raises instead of succeeding. -/
def decodedSubMissing (t : RawToken) (now : Nat) : Bool :=
  match decode_token t now with
  | none => false
  | some payload => payload.sub.isNone

/-! ## Concrete example values for witnesses and counterexamples -/

/-- A password verifier for concrete examples: the stored hash of `p` is
`"bcrypt:" ++ p`. -/
def exVerify : String → String → Bool := fun plain hashed => hashed == "bcrypt:" ++ plain

/-- A TOTP verifier for concrete examples: the valid code for a secret
is the secret itself. -/
def exTotp : String → String → Bool := fun secret code => code == secret

/-- An example user. -/
def exUser : User := ⟨"u", "u@x.com", some "bcrypt:pw", true, false, false, none⟩

/-- An example refresh token for `exUser`, expiring at 100. -/
def exTok : RawToken := .signed ⟨some "u", some 100, some "refresh"⟩

/-- Stored record shadowing `exTok`. -/
def exRecord : RefreshTokenRecord := ⟨"u", hash_token exTok, 100, false⟩

/-- An example store holding `exUser` and the record of `exTok`. -/
def exDb : DB := ⟨[exUser], [exRecord], []⟩

/-- The access token minted by a rotation of `exTok` at time 50. -/
def exAccess : RawToken := .signed ⟨some "u", some 1850, some "access"⟩

/-- The refresh token minted by a rotation of `exTok` at time 50. -/
def exRefresh2 : RawToken := .signed ⟨some "u", some 604850, some "refresh"⟩

/-- The store after rotating `exTok` at time 50 in `exDb`. -/
def exDbRot : DB :=
  ⟨[exUser], [⟨"u", hash_token exTok, 100, true⟩, ⟨"u", hash_token exRefresh2, 604850, false⟩], []⟩

/-- A store in which a record already holds the hash that the refresh
token freshly minted at time 50 for subject `"u"` will carry: rotation
of `exTok` at 50 then violates the unique index on `token_hash`. -/
def exDbCollide : DB :=
  ⟨[exUser], [exRecord, ⟨"u", hash_token exRefresh2, 999999, false⟩], []⟩

/-- A signed refresh token with no `sub` and no `exp` claim. -/
def exTokNoSub : RawToken := .signed ⟨none, none, some "refresh"⟩

/-- A store shadowing `exTokNoSub` with an unrevoked, unexpired record:
rotating `exTokNoSub` over it passes every validity check and then
raises at commit (NULL `user_id`), so it is not reported invalid. -/
def exDbNoSub : DB := ⟨[exUser], [⟨"u", hash_token exTokNoSub, 100, false⟩], []⟩

/-- A signed refresh token with a `sub` claim but no `exp` claim. -/
def exTokNoExp : RawToken := .signed ⟨some "u", none, some "refresh"⟩

/-- A store shadowing `exTokNoExp` with an unrevoked, unexpired record:
rotating `exTokNoExp` over it succeeds. -/
def exDbNoExp : DB := ⟨[exUser], [⟨"u", hash_token exTokNoExp, 100, false⟩], []⟩

/-- `exUser` deactivated, to vary the user table across rotations. -/
def exUserInactive : User := { exUser with is_active := false }

/-- A deactivated user who still has a password. -/
def exUser4 : User := ⟨"u4", "d@x.com", some "bcrypt:pw", false, false, false, none⟩

/-- Store for the login-classification witness. -/
def exDb4 : DB := ⟨[exUser4], [], []⟩

/-- A user pending 2FA verification: secret stored, not yet enabled. -/
def exPending : User := ⟨"p", "p@x.com", some "bcrypt:pw", true, false, false, some "OLD"⟩

/-! ## Helper lemmas -/

theorem updateFirst_eq_none {α : Type} {p : α → Bool} {f : α → α} {l : List α} :
    updateFirst p f l = none ↔ ∀ x ∈ l, p x = false := by
  induction l with
  | nil => simp [updateFirst]
  | cons y ys ih =>
    cases hpy : p y with
    | true => simp [updateFirst, hpy]
    | false =>
      cases hu : updateFirst p f ys with
      | none =>
        simp only [updateFirst, hpy, Bool.false_eq_true, if_false, hu, List.mem_cons]
        constructor
        · intro _ x hx
          rcases hx with rfl | hx
          · exact hpy
          · exact ih.mp hu x hx
        · intro _
          trivial
      | some pair =>
        simp only [updateFirst, hpy, Bool.false_eq_true, if_false, hu, List.mem_cons]
        constructor
        · intro h
          cases h
        · intro hall
          have hnone : updateFirst p f ys = none :=
            ih.mpr fun x hx => hall x (Or.inr hx)
          rw [hu] at hnone
          cases hnone

theorem updateFirst_eq_some {α : Type} {p : α → Bool} {f : α → α} {l ys : List α} {a : α}
    (h : updateFirst p f l = some (a, ys)) :
    ∃ l1 l2, l = l1 ++ a :: l2 ∧ (∀ x ∈ l1, p x = false) ∧ p a = true ∧
      ys = l1 ++ f a :: l2 := by
  induction l generalizing ys with
  | nil => simp [updateFirst] at h
  | cons y l ih =>
    cases hpy : p y with
    | true =>
      refine ⟨[], l, ?_⟩
      simp only [updateFirst, hpy, if_true, Option.some.injEq, Prod.mk.injEq] at h
      obtain ⟨rfl, rfl⟩ := h
      simp [hpy]
    | false =>
      simp only [updateFirst, hpy, Bool.false_eq_true, if_false] at h
      cases hu : updateFirst p f l with
      | none => rw [hu] at h; cases h
      | some pair =>
        obtain ⟨b, zs⟩ := pair
        rw [hu] at h
        simp only [Option.some.injEq, Prod.mk.injEq] at h
        obtain ⟨rfl, rfl⟩ := h
        obtain ⟨l1, l2, hl, hl1, hpa, hzs⟩ := ih hu
        refine ⟨y :: l1, l2, by simp [hl], ?_, hpa, by simp [hzs]⟩
        intro x hx
        rcases List.mem_cons.mp hx with rfl | hx
        · exact hpy
        · exact hl1 x hx

theorem updateFirst_isSome {α : Type} {p : α → Bool} {f : α → α} {l : List α} {a : α}
    (ha : a ∈ l) (hpa : p a = true) :
    ∃ b ys, updateFirst p f l = some (b, ys) := by
  cases hu : updateFirst p f l with
  | none =>
    have := updateFirst_eq_none.mp hu a ha
    rw [hpa] at this
    cases this
  | some pair => exact ⟨pair.1, pair.2, by simp [hu]⟩

theorem distinctBy_decomp {α β : Type} [BEq β] [LawfulBEq β] {key : α → β}
    {l1 l2 : List α} {a : α}
    (h : distinctBy key (l1 ++ a :: l2) = true) :
    ∀ x, x ∈ l1 ∨ x ∈ l2 → key x ≠ key a := by
  induction l1 with
  | nil =>
    intro x hx
    rcases hx with hx | hx
    · cases hx
    · simp only [List.nil_append, distinctBy, Bool.and_eq_true, Bool.not_eq_true',
        List.any_eq_false] at h
      intro hk
      have := h.1 x hx
      rw [hk] at this
      simp at this
  | cons y l1 ih =>
    intro x hx
    simp only [List.cons_append, distinctBy, Bool.and_eq_true, Bool.not_eq_true',
      List.any_eq_false] at h
    rcases hx with hx | hx
    · rcases List.mem_cons.mp hx with rfl | hx
      · have hkey := h.1 a (by simp)
        intro hk
        rw [hk] at hkey
        simp at hkey
      · exact ih h.2 x (Or.inl hx)
    · exact ih h.2 x (Or.inr hx)

theorem find?_key_distinct {α β : Type} [BEq β] [LawfulBEq β] {key : α → β}
    {l : List α} {a : α} {k : β}
    (hd : distinctBy key l = true) (ha : a ∈ l) (hk : key a = k) :
    l.find? (fun x => key x == k) = some a := by
  induction l with
  | nil => cases ha
  | cons y ys ih =>
    simp only [distinctBy, Bool.and_eq_true, Bool.not_eq_true', List.any_eq_false] at hd
    rcases List.mem_cons.mp ha with rfl | ha
    · simp [List.find?, hk]
    · have hky : key y ≠ k := by
        intro hky
        have := hd.1 a ha
        rw [hk, hky] at this
        simp at this
      rw [List.find?_cons_of_neg _ (by simpa using hky)]
      exact ih hd.2 ha

theorem decode_token_some {t : RawToken} {p : Payload} {now : Nat}
    (h : decode_token t now = some p) : t = RawToken.signed p := by
  cases t with
  | malformed s => simp [decode_token] at h
  | signed q =>
    cases hq : q.exp with
    | none =>
      simp only [decode_token, hq, Option.some.injEq] at h
      rw [h]
    | some e =>
      simp only [decode_token, hq] at h
      by_cases he : e < now
      · simp [he] at h
      · simp only [he, if_false] at h
        rw [Option.some.injEq] at h
        rw [h]

theorem distinctBy_eq_of_key {α β : Type} [BEq β] [LawfulBEq β] {key : α → β} {l : List α}
    (hd : distinctBy key l = true) {a b : α} (ha : a ∈ l) (hb : b ∈ l)
    (hk : key a = key b) : a = b := by
  induction l with
  | nil => cases ha
  | cons x xs ih =>
    simp only [distinctBy, Bool.and_eq_true, Bool.not_eq_true', List.any_eq_false] at hd
    rcases List.mem_cons.mp ha with ha1 | ha1
    · rcases List.mem_cons.mp hb with hb1 | hb1
      · rw [ha1, hb1]
      · exfalso
        have h2 := hd.1 b hb1
        rw [← ha1, ← hk] at h2
        simp at h2
    · rcases List.mem_cons.mp hb with hb1 | hb1
      · exfalso
        have h2 := hd.1 a ha1
        rw [← hb1, hk] at h2
        simp at h2
      · exact ih hd.2 ha1 hb1

theorem decode_signed_some (s : String) (e : Nat) (ty : String) (t1 : Nat) (h : ¬ e < t1) :
    decode_token (.signed ⟨some s, some e, some ty⟩) t1 = some ⟨some s, some e, some ty⟩ := by
  simp [decode_token, h]

theorem decode_signed_none (s : String) (e : Nat) (ty : String) (t1 : Nat) (h : e < t1) :
    decode_token (.signed ⟨some s, some e, some ty⟩) t1 = none := by
  simp [decode_token, h]

theorem authenticate_user_none_iff (verify : String → String → Bool) (db : DB)
    (email password : String)
    (hwf : distinctBy (fun x => x.email) db.users = true) :
    authenticate_user verify db email password = none ↔
      (∀ u ∈ db.users, u.email ≠ email) ∨
      (∃ u ∈ db.users, u.email = email ∧ u.hashed_password = none) ∨
      (∃ u ∈ db.users, u.email = email ∧
         ∃ hp, u.hashed_password = some hp ∧ verify password hp = false) := by
  unfold authenticate_user
  cases hfind : db.users.find? (fun x => x.email == email) with
  | none =>
    have hnone := List.find?_eq_none.mp hfind
    constructor
    · intro _
      exact Or.inl fun v hv => by simpa using hnone v hv
    · intro _
      rfl
  | some u =>
    have huem : u.email = email := by simpa using List.find?_some hfind
    have humem : u ∈ db.users := List.mem_of_find?_eq_some hfind
    have huniq : ∀ v ∈ db.users, v.email = email → v = u := by
      intro v hv hve
      have h2 := find?_key_distinct hwf hv hve
      simp only [] at h2
      rw [hfind] at h2
      exact (Option.some.inj h2).symm
    cases hpw : u.hashed_password with
    | none =>
      simp only [hpw]
      constructor
      · intro _
        exact Or.inr (Or.inl ⟨u, humem, huem, hpw⟩)
      · intro _
        trivial
    | some hp =>
      cases hver : verify password hp with
      | false =>
        simp only [hpw, hver, Bool.false_eq_true, if_false]
        constructor
        · intro _
          exact Or.inr (Or.inr ⟨u, humem, huem, hp, hpw, hver⟩)
        · intro _
          trivial
      | true =>
        simp only [hpw, hver, if_true]
        constructor
        · intro h
          cases h
        · intro h
          exfalso
          rcases h with h1 | ⟨v, hv, hve, hvnone⟩ | ⟨v, hv, hve, hp2, hh2, hvf⟩
          · exact h1 u humem huem
          · rw [huniq v hv hve] at hvnone
            rw [hvnone] at hpw
            cases hpw
          · rw [huniq v hv hve] at hh2
            rw [hpw] at hh2
            have heq := Option.some.inj hh2
            rw [← heq] at hvf
            rw [hver] at hvf
            cases hvf

theorem authenticate_user_some_of (verify : String → String → Bool) (db : DB)
    (email password : String) (v : User) (hp : String)
    (hwf : distinctBy (fun x => x.email) db.users = true)
    (hv : v ∈ db.users) (hve : v.email = email)
    (hh : v.hashed_password = some hp) (hvt : verify password hp = true) :
    authenticate_user verify db email password = some v := by
  unfold authenticate_user
  have hfind := find?_key_distinct hwf hv hve
  simp only [] at hfind
  rw [hfind]
  simp [hh, hvt]

theorem authenticate_user_some (verify : String → String → Bool) (db : DB)
    (email password : String) (u : User)
    (h : authenticate_user verify db email password = some u) :
    u ∈ db.users ∧ u.email = email ∧
      ∃ hp, u.hashed_password = some hp ∧ verify password hp = true := by
  unfold authenticate_user at h
  cases hfind : db.users.find? (fun x => x.email == email) with
  | none => rw [hfind] at h; cases h
  | some v =>
    rw [hfind] at h
    simp only [] at h
    cases hpw : v.hashed_password with
    | none => rw [hpw] at h; cases h
    | some hp =>
      rw [hpw] at h
      simp only [] at h
      cases hver : verify password hp with
      | false => rw [hver] at h; simp at h
      | true =>
        rw [hver] at h
        simp only [if_true] at h
        have hvu : v = u := by simpa using h
        subst hvu
        exact ⟨List.mem_of_find?_eq_some hfind, by simpa using List.find?_some hfind,
          hp, hpw, hver⟩

theorem mint_eq (subject : String) (kind : TokenKind) (t0 ttl : Nat) :
    mint subject kind t0 ttl = .signed ⟨some subject,
      some (t0 + (if ttl = 0 then
        (match kind with | .access => accessTtl | .refresh => refreshTtl) else ttl)),
      some kind.claim⟩ := by
  cases kind <;> by_cases h0 : ttl = 0 <;>
    simp [mint, create_access_token, create_refresh_token, TokenKind.claim, h0]

theorem hashExists_congr {l1 l2 : List RefreshTokenRecord} {a b : RefreshTokenRecord}
    (hab : a.token_hash = b.token_hash) (h : TokenHash) :
    hashExists (l1 ++ a :: l2) h = hashExists (l1 ++ b :: l2) h := by
  simp [hashExists, List.any_append, List.any_cons, hab]

theorem rotate_reduce (db : DB) (t : RawToken) (now : Nat) (payload : Payload)
    (hdec : decode_token t now = some payload)
    (htyp : payload.typ = some "refresh") :
    refresh_access_token db t now =
      match updateFirst (fun r => r.token_hash == hash_token t && !r.revoked)
          (fun r => { r with revoked := true }) db.refresh_tokens with
      | none => .invalid
      | some (db_token, updated) =>
        if db_token.expires_at < now then .invalid
        else match payload.sub with
          | none => .fatal
          | some user_id =>
            if hashExists updated
                (hash_token (create_refresh_token (pyStr payload.sub) now none)) then .fatal
            else .ok { db with refresh_tokens := updated ++
                  [⟨user_id, hash_token (create_refresh_token (pyStr payload.sub) now none),
                    now + refreshTtl, false⟩] }
                (create_access_token (pyStr payload.sub) now none)
                (create_refresh_token (pyStr payload.sub) now none) := by
  unfold refresh_access_token
  rw [hdec]
  simp only []
  rw [if_neg (not_not.mpr htyp)]

/-! ## Claim theorems -/

/-- Claim C1: refresh tokens are single-use.  If `refresh_access_token`
succeeds on a raw token `t` over a store whose records have distinct
hashes (the invariant the unique index on `token_hash` guarantees), then
any later `refresh_access_token` on the same raw token over the
resulting store returns the invalid outcome: the successful rotation
marked the stored record for `t` revoked, and the rotation lookup
excludes revoked records. -/
theorem rotate_single_use (db : DB) (t : RawToken) (now now2 : Nat)
    (db2 : DB) (at2 rt2 : RawToken)
    (hwf : distinctBy (fun x => x.token_hash) db.refresh_tokens = true)
    (h : refresh_access_token db t now = .ok db2 at2 rt2) :
    refresh_access_token db2 t now2 = .invalid := by
  unfold refresh_access_token at h
  split at h
  · cases h
  next payload hdec =>
    split at h
    · cases h
    next htyp =>
      simp only [] at h
      split at h
      · cases h
      next found updated hup =>
        split at h
        · cases h
        next hexp =>
          split at h
          · cases h
          next user_id hsub =>
            split at h
            · cases h
            next hcol =>
              injection h with h1 h2 h3
              subst h1
              have htyp' : payload.typ = some "refresh" := not_not.mp htyp
              obtain ⟨l1, l2, hl, hl1, hpf, hupd⟩ := updateFirst_eq_some hup
              have hand := hpf
              rw [Bool.and_eq_true] at hand
              have hfh : found.token_hash = hash_token t := eq_of_beq hand.1
              have hfr : found.revoked = false := by
                have := hand.2
                rwa [Bool.not_eq_true'] at this
              rw [hl] at hwf
              have hdist := distinctBy_decomp hwf
              have hcol' : hashExists updated
                  (hash_token (create_refresh_token (pyStr payload.sub) now none)) = false :=
                Bool.not_eq_true _ ▸ Bool.eq_false_iff.mpr hcol
              rw [hashExists, List.any_eq_false] at hcol'
              have hffmem : ({ found with revoked := true } : RefreshTokenRecord) ∈ updated := by
                rw [hupd]
                exact List.mem_append.mpr (Or.inr (List.mem_cons_self _ _))
              have hneq : hash_token t ≠
                  hash_token (create_refresh_token (pyStr payload.sub) now none) := by
                have := hcol' _ hffmem
                simp only [beq_eq_false_iff_ne, ne_eq] at this
                simpa [hfh] using this
              have hnone : updateFirst
                  (fun r => r.token_hash == hash_token t && !r.revoked)
                  (fun r => { r with revoked := true })
                  (updated ++ [⟨user_id,
                    hash_token (create_refresh_token (pyStr payload.sub) now none),
                    now + refreshTtl, false⟩]) = none := by
                rw [updateFirst_eq_none]
                intro x hx
                rcases List.mem_append.mp hx with hx | hx
                · rw [hupd] at hx
                  rcases List.mem_append.mp hx with hx | hx
                  · exact hl1 x hx
                  · rcases List.mem_cons.mp hx with rfl | hx
                    · simp
                    · have : x.token_hash ≠ found.token_hash := hdist x (Or.inr hx)
                      rw [hfh] at this
                      simp [this]
                · rcases List.mem_cons.mp hx with rfl | hx
                  · simp [Ne.symm hneq]
                  · cases hx
              unfold refresh_access_token
              split
              · rfl
              next payload2 hdec2 =>
                have ht : RawToken.signed payload2 = RawToken.signed payload := by
                  rw [← decode_token_some hdec2, ← decode_token_some hdec]
                injection ht with hpp
                subst hpp
                rw [if_neg (not_not.mpr htyp')]
                simp only [hnone]

/-- Witness for C1: rotating `exTok` at time 50 over `exDb` succeeds and
yields `exDbRot`; a second rotation of the same raw token then fails. -/
theorem rotate_single_use_witness :
    refresh_access_token exDbRot exTok 77 = RotateResult.invalid :=
  rotate_single_use exDb exTok 50 77 exDbRot exAccess exRefresh2 (by decide) (by decide)

/-- Claim C5: `revoke_refresh_token` is idempotent in the returning-true
sense — a successful revoke leaves the record in place (hash unchanged),
and the lookup does not filter on the revoked flag, so revoking the same
raw token again still returns `true`; it returns `false` exactly when no
stored record carries the token's hash. -/
theorem revoke_true_idempotent (db db2 : DB) (t : RawToken)
    (hwf : distinctBy (fun x => x.token_hash) db.refresh_tokens = true) :
    (revoke_refresh_token db t = (true, db2) → (revoke_refresh_token db2 t).1 = true)
  ∧ ((revoke_refresh_token db t).1 = false ↔
       ∀ x ∈ db.refresh_tokens, x.token_hash ≠ hash_token t) := by
  constructor
  · intro h
    unfold revoke_refresh_token at h
    cases hup : updateFirst (fun r => r.token_hash == hash_token t)
        (fun r => { r with revoked := true }) db.refresh_tokens with
    | none => rw [hup] at h; cases h
    | some pair =>
      obtain ⟨a, updated⟩ := pair
      rw [hup] at h
      have hsnd : ({ db with refresh_tokens := updated } : DB) = db2 := congrArg Prod.snd h
      obtain ⟨l1, l2, hl, hl1, hpa, hupd⟩ := updateFirst_eq_some hup
      have hfamem : ({ a with revoked := true } : RefreshTokenRecord) ∈ updated := by
        rw [hupd]
        exact List.mem_append.mpr (Or.inr (List.mem_cons_self _ _))
      have hpfa : (({ a with revoked := true } : RefreshTokenRecord).token_hash
          == hash_token t) = true := hpa
      obtain ⟨b, ys, hsome⟩ :=
        @updateFirst_isSome RefreshTokenRecord (fun r => r.token_hash == hash_token t)
          (fun r => { r with revoked := true }) updated ({ a with revoked := true })
          hfamem hpfa
      rw [← hsnd]
      unfold revoke_refresh_token
      rw [hsome]
  · constructor
    · intro hfalse
      cases hup : updateFirst (fun r => r.token_hash == hash_token t)
          (fun r => { r with revoked := true }) db.refresh_tokens with
      | some pair =>
        exfalso
        unfold revoke_refresh_token at hfalse
        rw [hup] at hfalse
        simp at hfalse
      | none =>
        intro x hx
        have := updateFirst_eq_none.mp hup x hx
        simpa [beq_eq_false_iff_ne] using this
    · intro hall
      have hnone : updateFirst (fun r => r.token_hash == hash_token t)
          (fun r => { r with revoked := true }) db.refresh_tokens = none :=
        updateFirst_eq_none.mpr fun x hx => by
          simpa [beq_eq_false_iff_ne] using hall x hx
      unfold revoke_refresh_token
      rw [hnone]

/-- Witness for C5: revoking `exTok` over `exDb` returns `true`, and a
second revoke of the same raw token returns `true` again. -/
theorem revoke_true_idempotent_witness :
    (revoke_refresh_token ⟨[exUser], [⟨"u", hash_token exTok, 100, true⟩], []⟩ exTok).1 = true :=
  (revoke_true_idempotent exDb ⟨[exUser], [⟨"u", hash_token exTok, 100, true⟩], []⟩ exTok
    (by decide)).1 (by decide)

/-- Claim C6: from the pending-verification state (`two_factor_secret`
present, `two_factor_enabled = false`), `enable_2fa` with a code that
fails TOTP verification returns the invalid-code failure and leaves the
user unchanged; with a correct code it succeeds and sets the enabled
flag (secret retained); it fails with already-enabled when the flag is
already set and with not-started when no secret is stored. -/
theorem confirm_setup_retry (vf : String → String → Bool) (u : User) (s code code2 : String) :
    (u.two_factor_secret = some s → u.two_factor_enabled = false →
       vf s code = false → enable_2fa vf u code = (.invalidCode, u))
  ∧ (u.two_factor_secret = some s → u.two_factor_enabled = false →
       vf s code2 = true →
       enable_2fa vf u code2 = (.ok, { u with two_factor_enabled := true }))
  ∧ (u.two_factor_enabled = true → enable_2fa vf u code = (.alreadyEnabled, u))
  ∧ (u.two_factor_enabled = false → u.two_factor_secret = none →
       enable_2fa vf u code = (.notStarted, u)) := by
  refine ⟨?_, ?_, ?_, ?_⟩
  · intro hs hen hv
    simp [enable_2fa, hs, hen, hv]
  · intro hs hen hv
    simp [enable_2fa, hs, hen, hv]
  · intro hen
    simp [enable_2fa, hen]
  · intro hen hs
    simp [enable_2fa, hen, hs]

/-- Witness for C6: for the pending user `exPending` (secret `"OLD"`),
the wrong code `"X"` is rejected with the state unchanged, and the
correct code `"OLD"` afterwards still enables 2FA. -/
theorem confirm_setup_retry_witness :
    enable_2fa exTotp exPending "X" = (ConfirmResult.invalidCode, exPending)
  ∧ enable_2fa exTotp exPending "OLD" =
      (ConfirmResult.ok, { exPending with two_factor_enabled := true }) :=
  ⟨(confirm_setup_retry exTotp exPending "OLD" "X" "OLD").1 (by decide) (by decide) (by decide),
   (confirm_setup_retry exTotp exPending "OLD" "X" "OLD").2.1 (by decide) (by decide) (by decide)⟩

/-- Claim C10: `setup_2fa` is rejected only when 2FA is already enabled;
invoked while a setup is already pending it succeeds again and
overwrites the stored secret with the freshly generated one, so a code
valid only for the previous secret is afterwards rejected by
`enable_2fa`. -/
theorem begin_setup_overwrites (vf : String → String → Bool) (u : User)
    (freshSecret old code : String) :
    (u.two_factor_enabled = false →
       setup_2fa freshSecret u =
         (.ok freshSecret, { u with two_factor_secret := some freshSecret }))
  ∧ (u.two_factor_enabled = true → setup_2fa freshSecret u = (.alreadyEnabled, u))
  ∧ (u.two_factor_enabled = false → u.two_factor_secret = some old →
       vf old code = true → vf freshSecret code = false →
       (enable_2fa vf (setup_2fa freshSecret u).2 code).1 = ConfirmResult.invalidCode) := by
  refine ⟨?_, ?_, ?_⟩
  · intro hen
    simp [setup_2fa, hen]
  · intro hen
    simp [setup_2fa, hen]
  · intro hen hs hold hfresh
    simp [setup_2fa, enable_2fa, hen, hfresh]

/-- Witness for C10: for the pending user `exPending`, a repeated setup
succeeds and replaces `"OLD"` by `"NEW"`, after which the previously
valid code `"OLD"` is rejected. -/
theorem begin_setup_overwrites_witness :
    setup_2fa "NEW" exPending =
      (SetupResult.ok "NEW", { exPending with two_factor_secret := some "NEW" })
  ∧ (enable_2fa exTotp (setup_2fa "NEW" exPending).2 "OLD").1 = ConfirmResult.invalidCode :=
  ⟨(begin_setup_overwrites exTotp exPending "NEW" "OLD" "OLD").1 (by decide),
   (begin_setup_overwrites exTotp exPending "NEW" "OLD" "OLD").2.2
     (by decide) (by decide) (by decide) (by decide)⟩

/-- Claim C7: token-codec round trip.  Decoding a token minted by
`mint subject kind t0 ttl` at any instant before `ttl` has elapsed
returns the same subject and the same kind; decoding once the clock has
advanced past the token's embedded expiry returns the invalid outcome. -/
theorem mint_decode_roundtrip (subject : String) (kind : TokenKind) (t0 ttl t1 : Nat) :
    (t1 < t0 + ttl →
       ∃ e, decode_token (mint subject kind t0 ttl) t1 =
         some ⟨some subject, some e, some kind.claim⟩)
  ∧ (tokenExp (mint subject kind t0 ttl) < t1 →
       decode_token (mint subject kind t0 ttl) t1 = none) := by
  rw [mint_eq]
  constructor
  · intro h1
    refine ⟨_, decode_signed_some _ _ _ _ ?_⟩
    by_cases h0 : ttl = 0 <;> simp [h0] <;> omega
  · intro h2
    simp only [tokenExp, Option.getD_some] at h2
    exact decode_signed_none _ _ _ _ h2

/-- Witness for C7: a refresh token minted at 0 with ttl 10 decodes at 5
to the same subject and kind, and no longer decodes at 20. -/
theorem mint_decode_roundtrip_witness :
    (∃ e, decode_token (mint "u" TokenKind.refresh 0 10) 5 =
       some ⟨some "u", some e, some "refresh"⟩)
  ∧ decode_token (mint "u" TokenKind.refresh 0 10) 20 = none :=
  ⟨(mint_decode_roundtrip "u" TokenKind.refresh 0 10 5).1 (by decide),
   (mint_decode_roundtrip "u" TokenKind.refresh 0 10 20).2 (by decide)⟩

/-- Counterexample to C3: the operations do not reject tokens missing
the `sub`/`exp`/`type` claims the way the claim states.  A signed token
with none of the three claims decodes successfully; a signed refresh
token missing only `exp` rotates and is not rejected as invalid; a
signed refresh token missing `sub` is not reported invalid either — it
passes every validity check and the call then raises at `commit` (NULL
`user_id` in a NOT NULL column, the `fatal` outcome); and a signed
access token missing `exp` resolves a user. -/
theorem missing_claims_accepted_cex :
    decode_token (RawToken.signed ⟨none, none, none⟩) 0 = some ⟨none, none, none⟩
  ∧ refresh_access_token exDbNoExp exTokNoExp 0 ≠ RotateResult.invalid
  ∧ refresh_access_token exDbNoSub exTokNoSub 0 = RotateResult.fatal
  ∧ get_user_from_token exDb (RawToken.signed ⟨some "u", none, some "access"⟩) 0 = some exUser := by
  refine ⟨rfl, ?_, ?_, ?_⟩ <;> decide

/-- Amended C3: `decode_token` verifies only the signature and — when an
`exp` claim is present — expiry; it does not require `sub`, `exp` or
`type`.  The downstream checks are partial: `refresh_access_token`
rejects every token whose `type` claim is not `"refresh"` (including a
missing `type`) but does not reject a missing `sub` or `exp` — a
refresh token without `exp` can rotate, and one without `sub` escapes
as a commit-time error rather than an invalid result; and
`get_user_from_token` rejects every token whose `type` claim is not
`"access"` or whose `sub` claim is missing, while a token missing `exp`
is accepted by `decode_token` at any time. -/
theorem token_claim_checks_amended (db : DB) (p : Payload) (s : String) (now : Nat) :
    (decode_token (.malformed s) now = none)
  ∧ (p.typ ≠ some "refresh" → refresh_access_token db (.signed p) now = .invalid)
  ∧ (p.typ ≠ some "access" → get_user_from_token db (.signed p) now = none)
  ∧ (p.sub = none → get_user_from_token db (.signed p) now = none)
  ∧ (p.exp = none → decode_token (.signed p) now = some p) := by
  refine ⟨rfl, ?_, ?_, ?_, ?_⟩
  · intro htyp
    unfold refresh_access_token
    split
    · rfl
    next payload2 hdec2 =>
      have hpp : RawToken.signed p = RawToken.signed payload2 := decode_token_some hdec2
      injection hpp with hpp
      subst hpp
      rw [if_pos htyp]
  · intro htyp
    unfold get_user_from_token
    split
    · rfl
    next payload2 hdec2 =>
      have hpp : RawToken.signed p = RawToken.signed payload2 := decode_token_some hdec2
      injection hpp with hpp
      subst hpp
      rw [if_pos htyp]
  · intro hsub
    unfold get_user_from_token
    split
    · rfl
    next payload2 hdec2 =>
      have hpp : RawToken.signed p = RawToken.signed payload2 := decode_token_some hdec2
      injection hpp with hpp
      subst hpp
      by_cases htyp : p.typ ≠ some "access"
      · rw [if_pos htyp]
      · rw [if_neg htyp]
        simp only [hsub]
  · intro hexp
    simp [decode_token, hexp]

/-- Witness for the amended C3: a signed token with a wrong `type` claim
is rejected by both consumers, and a signed token without `exp` decodes. -/
theorem token_claim_checks_amended_witness :
    refresh_access_token exDb (.signed ⟨some "u", some 5, some "weird"⟩) 0 = RotateResult.invalid
  ∧ get_user_from_token exDb (.signed ⟨some "u", some 5, some "weird"⟩) 0 = none
  ∧ decode_token (.signed ⟨some "u", none, some "access"⟩) 3 =
      some ⟨some "u", none, some "access"⟩ :=
  ⟨(token_claim_checks_amended exDb ⟨some "u", some 5, some "weird"⟩ "x" 0).2.1 (by decide),
   (token_claim_checks_amended exDb ⟨some "u", some 5, some "weird"⟩ "x" 0).2.2.1 (by decide),
   (token_claim_checks_amended exDb ⟨some "u", none, some "access"⟩ "x" 3).2.2.2.2 rfl⟩

/-- Claim C9: `refresh_access_token` never reads the user (or OAuth)
tables, so its outcome is the same over any two stores sharing the same
refresh-token table; in particular, whenever rotation succeeds over one
user table it succeeds identically over any other — a deactivated
user's unexpired, unrevoked refresh token still rotates successfully. -/
theorem rotate_independent_of_users (users1 users2 : List User)
    (oauth1 oauth2 : List OAuthAccount) (toks : List RefreshTokenRecord)
    (t : RawToken) (now : Nat) :
    refresh_access_token ⟨users2, toks, oauth2⟩ t now =
      RotateResult.substEnv users2 oauth2 (refresh_access_token ⟨users1, toks, oauth1⟩ t now)
  ∧ (∀ db2 at2 rt2, refresh_access_token ⟨users1, toks, oauth1⟩ t now = .ok db2 at2 rt2 →
       refresh_access_token ⟨users2, toks, oauth2⟩ t now =
         .ok ⟨users2, db2.refresh_tokens, oauth2⟩ at2 rt2) := by
  have hmain : refresh_access_token ⟨users2, toks, oauth2⟩ t now =
      RotateResult.substEnv users2 oauth2 (refresh_access_token ⟨users1, toks, oauth1⟩ t now) := by
    unfold refresh_access_token
    cases decode_token t now with
    | none => rfl
    | some payload =>
      simp only []
      by_cases htyp : payload.typ ≠ some "refresh"
      · rw [if_pos htyp, if_pos htyp]
        rfl
      · rw [if_neg htyp, if_neg htyp]
        generalize updateFirst (fun r => r.token_hash == hash_token t && !r.revoked)
            (fun r => { r with revoked := true }) toks = res
        cases res with
        | none => rfl
        | some pair =>
          obtain ⟨found, updated⟩ := pair
          simp only []
          by_cases hexp : found.expires_at < now
          · rw [if_pos hexp, if_pos hexp]
            rfl
          · rw [if_neg hexp, if_neg hexp]
            cases payload.sub with
            | none => rfl
            | some user_id =>
              simp only []
              by_cases hcol : hashExists updated
                  (hash_token (create_refresh_token (pyStr (some user_id)) now none)) = true
              · rw [if_pos hcol, if_pos hcol]
                rfl
              · rw [if_neg hcol, if_neg hcol]
                rfl
  refine ⟨hmain, ?_⟩
  intro db2 at2 rt2 hok
  rw [hmain, hok]
  rfl

/-- Witness for C9: rotating `exTok` at time 50 succeeds over the store
with the active user, hence it succeeds identically over the store in
which the same user is deactivated. -/
theorem rotate_independent_of_users_witness :
    refresh_access_token ⟨[exUserInactive], [exRecord], []⟩ exTok 50 =
      RotateResult.ok ⟨[exUserInactive], exDbRot.refresh_tokens, []⟩ exAccess exRefresh2 :=
  (rotate_independent_of_users [exUser] [exUserInactive] [] [] [exRecord] exTok 50).2
    exDbRot exAccess exRefresh2 (by decide)

/-- Claim C4: the `/login` handler fails with the invalid-credentials
outcome exactly when the user is absent, has a null password hash, or
the password does not verify against the stored hash; it fails with the
account-deactivated outcome exactly when the user exists, the password
verifies, and `is_active` is false — so the deactivation check is
reached only after successful credential verification: a deactivated
account with a wrong password yields invalid credentials, never the
deactivated error. -/
theorem login_failure_classification (verify : String → String → Bool) (db : DB)
    (email password : String) (now : Nat)
    (hwf : distinctBy (fun x => x.email) db.users = true) :
    (login verify db email password now = .invalidCredentials ↔
       (∀ u ∈ db.users, u.email ≠ email) ∨
       (∃ u ∈ db.users, u.email = email ∧ u.hashed_password = none) ∨
       (∃ u ∈ db.users, u.email = email ∧
          ∃ hp, u.hashed_password = some hp ∧ verify password hp = false))
  ∧ (login verify db email password now = .accountDeactivated ↔
       (∃ u ∈ db.users, u.email = email ∧
          ∃ hp, u.hashed_password = some hp ∧ verify password hp = true ∧
            u.is_active = false)) := by
  cases hauth : authenticate_user verify db email password with
  | none =>
    have hlogin : login verify db email password now = .invalidCredentials := by
      unfold login
      rw [hauth]
    rw [hlogin]
    constructor
    · constructor
      · intro _
        exact (authenticate_user_none_iff verify db email password hwf).mp hauth
      · intro _
        rfl
    · constructor
      · intro hcontra
        cases hcontra
      · rintro ⟨v, hv, hve, hp, hh, hvt, hact⟩
        exfalso
        rw [authenticate_user_some_of verify db email password v hp hwf hv hve hh hvt] at hauth
        cases hauth
  | some u =>
    obtain ⟨humem, huem, hp, hpw, hver⟩ := authenticate_user_some verify db email password u hauth
    have hlogin : login verify db email password now =
        (if !u.is_active then LoginResult.accountDeactivated
         else if u.two_factor_enabled then LoginResult.requires2fa u.id
         else match create_tokens db u now with
              | .fatal => LoginResult.fatal
              | .ok db2 a r => LoginResult.tokens db2 a r) := by
      unfold login
      rw [hauth]
    rw [hlogin]
    have hnotinv : (if !u.is_active then LoginResult.accountDeactivated
         else if u.two_factor_enabled then LoginResult.requires2fa u.id
         else match create_tokens db u now with
              | .fatal => LoginResult.fatal
              | .ok db2 a r => LoginResult.tokens db2 a r) ≠ LoginResult.invalidCredentials := by
      cases u.is_active <;> cases u.two_factor_enabled <;> cases create_tokens db u now <;> simp
    constructor
    · constructor
      · intro hcontra
        exact absurd hcontra hnotinv
      · rintro (h1 | ⟨v, hv, hve, hvn⟩ | ⟨v, hv, hve, hp2, hh2, hvf⟩)
        · exact absurd huem (h1 u humem)
        · have hvu : v = u := distinctBy_eq_of_key hwf hv humem (by rw [hve, huem])
          rw [hvu] at hvn
          rw [hvn] at hpw
          cases hpw
        · have hvu : v = u := distinctBy_eq_of_key hwf hv humem (by rw [hve, huem])
          rw [hvu] at hh2
          rw [hpw] at hh2
          have heq := Option.some.inj hh2
          rw [← heq] at hvf
          rw [hver] at hvf
          cases hvf
    · cases hact : u.is_active with
      | false =>
        constructor
        · intro _
          exact ⟨u, humem, huem, hp, hpw, hver, hact⟩
        · intro _
          rfl
      | true =>
        have hne2 : (if u.two_factor_enabled then LoginResult.requires2fa u.id
             else match create_tokens db u now with
                  | .fatal => LoginResult.fatal
                  | .ok db2 a r => LoginResult.tokens db2 a r) ≠ LoginResult.accountDeactivated := by
          cases u.two_factor_enabled <;> cases create_tokens db u now <;> simp
        constructor
        · intro hcontra
          exact absurd hcontra hne2
        · rintro ⟨v, hv, hve, hp2, hh2, hvt2, hactv⟩
          exfalso
          have hvu : v = u := distinctBy_eq_of_key hwf hv humem (by rw [hve, huem])
          rw [hvu] at hactv
          rw [hact] at hactv
          cases hactv

/-- Witness for C4: a deactivated user with a stored password hash gets
invalid-credentials on a wrong password (the deactivation check is not
reached), and account-deactivated on the correct password. -/
theorem login_failure_classification_witness :
    login exVerify exDb4 "d@x.com" "wrong" 0 = LoginResult.invalidCredentials
  ∧ login exVerify exDb4 "d@x.com" "pw" 0 = LoginResult.accountDeactivated :=
  ⟨(login_failure_classification exVerify exDb4 "d@x.com" "wrong" 0 (by decide)).1.mpr
     (Or.inr (Or.inr ⟨exUser4, by decide, by decide, "bcrypt:pw", by decide, by decide⟩)),
   (login_failure_classification exVerify exDb4 "d@x.com" "pw" 0 (by decide)).2.mpr
     ⟨exUser4, by decide, by decide, "bcrypt:pw", by decide, by decide, by decide⟩⟩

/-- Claim C8: OAuth linking is convergent.  Over a well-formed store
with no existing link for `(provider, puid)`, the first
`get_or_create_oauth_user` call returns a user and a store with exactly
one new OAuthAccount record, and a second call with the same arguments
resolves through that link, returning the same user and performing no
writes (the store is returned unchanged, whatever fresh id the second
call would have used). -/
theorem oauth_linking_convergent (db : DB) (provider puid email freshId : String)
    (hNoLink : db.oauth_accounts.all
       (fun a => !(a.provider == provider && a.provider_user_id == puid)) = true)
    (hFresh : db.users.all (fun u => !(u.id == freshId)) = true)
    (hIds : distinctBy (fun u => u.id) db.users = true) :
    ∃ u db2, get_or_create_oauth_user db provider puid email freshId = .ok u db2 ∧
      (∀ freshId2, get_or_create_oauth_user db2 provider puid email freshId2 = .ok u db2) ∧
      db2.oauth_accounts.length = db.oauth_accounts.length + 1 := by
  have hfind1 : db.oauth_accounts.find?
      (fun a => a.provider == provider && a.provider_user_id == puid) = none := by
    rw [List.find?_eq_none]
    intro a ha hcontra
    have h2 := List.all_eq_true.mp hNoLink a ha
    rw [hcontra] at h2
    simp at h2
  unfold get_or_create_oauth_user
  rw [hfind1]
  simp only []
  cases hfu : db.users.find? (fun x => x.email == email) with
  | some u =>
    have humem : u ∈ db.users := List.mem_of_find?_eq_some hfu
    refine ⟨u, _, rfl, ?_, by simp⟩
    intro freshId2
    simp only []
    have hfind2 : List.find? (fun a => a.provider == provider && a.provider_user_id == puid)
        (db.oauth_accounts ++ [(⟨u.id, provider, puid⟩ : OAuthAccount)]) =
        some ⟨u.id, provider, puid⟩ := by
      rw [List.find?_append, hfind1]
      simp [List.find?]
    rw [hfind2]
    simp only []
    have hfindu := find?_key_distinct hIds humem rfl
    simp only [] at hfindu
    rw [hfindu]
  | none =>
    refine ⟨⟨freshId, email, none, true, true, false, none⟩, _, rfl, ?_, by simp⟩
    intro freshId2
    simp only []
    have hfind2 : List.find? (fun a => a.provider == provider && a.provider_user_id == puid)
        (db.oauth_accounts ++ [(⟨freshId, provider, puid⟩ : OAuthAccount)]) =
        some ⟨freshId, provider, puid⟩ := by
      rw [List.find?_append, hfind1]
      simp [List.find?]
    rw [hfind2]
    simp only []
    have hfindn : db.users.find? (fun x => x.id == freshId) = none := by
      rw [List.find?_eq_none]
      intro x hx hcontra
      have h2 := List.all_eq_true.mp hFresh x hx
      rw [hcontra] at h2
      simp at h2
    rw [List.find?_append, hfindn]
    simp [List.find?]

/-- Witness for C8: starting from the empty store,
`resolveOrCreate("google", "123", "a@x.com")` called twice returns the
same user both times and creates exactly one OAuthAccount record. -/
theorem oauth_linking_convergent_witness :
    ∃ u db2, get_or_create_oauth_user ⟨[], [], []⟩ "google" "123" "a@x.com" "id1" = .ok u db2 ∧
      (∀ freshId2, get_or_create_oauth_user db2 "google" "123" "a@x.com" freshId2 = .ok u db2) ∧
      db2.oauth_accounts.length = (⟨[], [], []⟩ : DB).oauth_accounts.length + 1 :=
  oauth_linking_convergent ⟨[], [], []⟩ "google" "123" "a@x.com" "id1" rfl rfl rfl

/-- Amended C2 (the claim, minus the two commit-failure cases the
counterexample exhibits): over a store whose records have distinct
hashes, `refresh_access_token` returns the invalid outcome if and only
if the spec's failure condition holds (`rotateRejectSpec`: decode fails,
kind is not refresh, no record matches the hash, the matching record is
revoked, or its persisted expiry is past).  When that condition fails,
the call succeeds — the old record is revoked in the new store and a
new unrevoked record holds the hash of the fresh refresh token — except
in two cases where `commit` raises instead: the decoded payload has no
`sub` claim (the insert puts NULL into the NOT NULL `user_id` column),
or the freshly minted refresh token's hash is already stored (unique
index violation). -/
theorem rotate_outcome_characterisation (db : DB) (t : RawToken) (now : Nat)
    (hwf : distinctBy (fun x => x.token_hash) db.refresh_tokens = true) :
    (refresh_access_token db t now = .invalid ↔ rotateRejectSpec db t now = true)
  ∧ (rotateRejectSpec db t now = false → decodedSubMissing t now = true →
       refresh_access_token db t now = .fatal)
  ∧ (rotateRejectSpec db t now = false → decodedSubMissing t now = false →
       freshCollision db t now = false →
       ∃ db2 a2 r2, refresh_access_token db t now = .ok db2 a2 r2 ∧
         (∃ x ∈ db2.refresh_tokens, x.token_hash = hash_token t ∧ x.revoked = true) ∧
         (∃ x ∈ db2.refresh_tokens, x.token_hash = hash_token r2 ∧ x.revoked = false))
  ∧ (rotateRejectSpec db t now = false → decodedSubMissing t now = false →
       freshCollision db t now = true →
       refresh_access_token db t now = .fatal) := by
  cases hdec : decode_token t now with
  | none =>
    have hspec : rotateRejectSpec db t now = true := by
      unfold rotateRejectSpec
      rw [hdec]
    have hrot : refresh_access_token db t now = .invalid := by
      unfold refresh_access_token
      rw [hdec]
    refine ⟨by simp [hrot, hspec], ?_, ?_, ?_⟩ <;>
      · intro hspec2
        rw [hspec] at hspec2
        cases hspec2
  | some payload =>
    by_cases htyp : payload.typ = some "refresh"
    case neg =>
      have hspec : rotateRejectSpec db t now = true := by
        unfold rotateRejectSpec
        rw [hdec]
        simp [bne_iff_ne, htyp]
      have hrot : refresh_access_token db t now = .invalid := by
        unfold refresh_access_token
        rw [hdec]
        simp only []
        rw [if_pos htyp]
      refine ⟨by simp [hrot, hspec], ?_, ?_, ?_⟩ <;>
        · intro hspec2
          rw [hspec] at hspec2
          cases hspec2
    case pos =>
      have hbne : (payload.typ != some "refresh") = false := by
        simp [htyp]
      cases hup : updateFirst (fun r => r.token_hash == hash_token t && !r.revoked)
          (fun r => { r with revoked := true }) db.refresh_tokens with
      | none =>
        have hforall := updateFirst_eq_none.mp hup
        have hrot : refresh_access_token db t now = .invalid := by
          rw [rotate_reduce db t now payload hdec htyp, hup]
        have hspec : rotateRejectSpec db t now = true := by
          unfold rotateRejectSpec
          rw [hdec]
          cases hany : db.refresh_tokens.any (fun r => r.token_hash == hash_token t) with
          | false =>
            have hall : db.refresh_tokens.all (fun r => !(r.token_hash == hash_token t)) = true := by
              rw [List.all_eq_true]
              intro x hx
              have h3 := List.any_eq_false.mp hany x hx
              simp only [Bool.not_eq_true] at h3 ⊢
              rw [h3]
              rfl
            rw [hall]
            simp
          | true =>
            obtain ⟨x, hx, hxh⟩ := List.any_eq_true.mp hany
            have hxr : x.revoked = true := by
              have h3 := hforall x hx
              rw [Bool.and_eq_false_iff] at h3
              rcases h3 with h3 | h3
              · rw [hxh] at h3
                cases h3
              · rwa [Bool.not_eq_false'] at h3
            have hrev : db.refresh_tokens.any
                (fun r => r.token_hash == hash_token t && r.revoked) = true :=
              List.any_eq_true.mpr ⟨x, hx, by rw [hxh, hxr]; rfl⟩
            rw [hrev]
            simp
        refine ⟨by simp [hrot, hspec], ?_, ?_, ?_⟩ <;>
          · intro hspec2
            rw [hspec] at hspec2
            cases hspec2
      | some pair =>
        obtain ⟨found, updated⟩ := pair
        obtain ⟨l1, l2, hl, hl1, hpf, hupd⟩ := updateFirst_eq_some hup
        have hand := hpf
        rw [Bool.and_eq_true] at hand
        have hfh : found.token_hash = hash_token t := eq_of_beq hand.1
        have hfr : found.revoked = false := by
          have := hand.2
          rwa [Bool.not_eq_true'] at this
        have hfmem : found ∈ db.refresh_tokens := by
          rw [hl]
          exact List.mem_append.mpr (Or.inr (List.mem_cons_self _ _))
        have hdist := distinctBy_decomp (hl ▸ hwf)
        have honly : ∀ x ∈ db.refresh_tokens, x.token_hash = hash_token t → x = found := by
          intro x hx hxh
          rw [hl] at hx
          rcases List.mem_append.mp hx with hx1 | hx1
          · exact absurd (hfh ▸ hxh) (hdist x (Or.inl hx1))
          · rcases List.mem_cons.mp hx1 with rfl | hx1
            · rfl
            · exact absurd (hfh ▸ hxh) (hdist x (Or.inr hx1))
        by_cases hexp : found.expires_at < now
        case pos =>
          have hrot : refresh_access_token db t now = .invalid := by
            rw [rotate_reduce db t now payload hdec htyp, hup]
            simp only []
            rw [if_pos hexp]
          have hspec : rotateRejectSpec db t now = true := by
            unfold rotateRejectSpec
            rw [hdec]
            have hexpany : db.refresh_tokens.any
                (fun r => r.token_hash == hash_token t && !r.revoked && decide (r.expires_at < now)) = true :=
              List.any_eq_true.mpr ⟨found, hfmem, by
                rw [Bool.and_eq_true, Bool.and_eq_true]
                exact ⟨⟨hand.1, hand.2⟩, by simpa using hexp⟩⟩
            rw [hexpany]
            simp
          refine ⟨by simp [hrot, hspec], ?_, ?_, ?_⟩ <;>
            · intro hspec2
              rw [hspec] at hspec2
              cases hspec2
        case neg =>
          have hspec : rotateRejectSpec db t now = false := by
            unfold rotateRejectSpec
            rw [hdec]
            simp only []
            have h2 : db.refresh_tokens.all (fun r => !(r.token_hash == hash_token t)) = false := by
              rw [List.all_eq_false]
              exact ⟨found, hfmem, by simp [hfh]⟩
            have h3 : db.refresh_tokens.any
                (fun r => r.token_hash == hash_token t && r.revoked) = false := by
              rw [List.any_eq_false]
              intro x hx
              intro hcontra
              rw [Bool.and_eq_true] at hcontra
              have hxf := honly x hx (eq_of_beq hcontra.1)
              rw [hxf] at hcontra
              rw [hfr] at hcontra
              cases hcontra.2
            have h4 : db.refresh_tokens.any
                (fun r => r.token_hash == hash_token t && !r.revoked && decide (r.expires_at < now)) = false := by
              rw [List.any_eq_false]
              intro x hx
              intro hcontra
              rw [Bool.and_eq_true, Bool.and_eq_true] at hcontra
              have hxf := honly x hx (eq_of_beq hcontra.1.1)
              rw [hxf] at hcontra
              have := hcontra.2
              simp only [decide_eq_true_eq] at this
              exact hexp this
            rw [hbne, h2, h3, h4]
            rfl
          have hcoleq : freshCollision db t now =
              hashExists updated (hash_token (create_refresh_token (pyStr payload.sub) now none)) := by
            unfold freshCollision
            rw [hdec]
            simp only []
            rw [hl, hupd]
            exact @hashExists_congr l1 l2 found ({ found with revoked := true }) rfl
              (hash_token (create_refresh_token (pyStr payload.sub) now none))
          cases hsubm : payload.sub with
          | none =>
            have hsmiss : decodedSubMissing t now = true := by
              unfold decodedSubMissing
              rw [hdec]
              simp only []
              rw [hsubm]
              rfl
            have hrot : refresh_access_token db t now = .fatal := by
              rw [rotate_reduce db t now payload hdec htyp, hup]
              simp only []
              rw [if_neg hexp, hsubm]
            refine ⟨?_, ?_, ?_, ?_⟩
            · rw [hrot, hspec]
              constructor
              · intro hc
                cases hc
              · intro hc
                cases hc
            · intro _ _
              exact hrot
            · intro _ hsm _
              rw [hsmiss] at hsm
              cases hsm
            · intro _ hsm _
              rw [hsmiss] at hsm
              cases hsm
          | some user_id =>
            have hsmiss : decodedSubMissing t now = false := by
              unfold decodedSubMissing
              rw [hdec]
              simp only []
              rw [hsubm]
              rfl
            rw [hsubm] at hcoleq
            cases hcol : freshCollision db t now with
            | true =>
              have hrot : refresh_access_token db t now = .fatal := by
                rw [rotate_reduce db t now payload hdec htyp, hup]
                simp only []
                rw [if_neg hexp, hsubm]
                simp only []
                rw [if_pos (hcoleq ▸ hcol)]
              refine ⟨?_, ?_, ?_, ?_⟩
              · rw [hrot, hspec]
                constructor
                · intro hc
                  cases hc
                · intro hc
                  cases hc
              · intro _ hsm
                rw [hsmiss] at hsm
                cases hsm
              · intro _ _ hcol2
                cases hcol2
              · intro _ _ _
                exact hrot
            | false =>
              have hrot : refresh_access_token db t now =
                  .ok { db with refresh_tokens := updated ++
                      [⟨user_id,
                        hash_token (create_refresh_token (pyStr payload.sub) now none),
                        now + refreshTtl, false⟩] }
                    (create_access_token (pyStr payload.sub) now none)
                    (create_refresh_token (pyStr payload.sub) now none) := by
                rw [rotate_reduce db t now payload hdec htyp, hup]
                simp only []
                rw [if_neg hexp, hsubm]
                simp only []
                rw [if_neg (by rw [← hcoleq, hcol]; simp)]
              refine ⟨?_, ?_, ?_, ?_⟩
              · rw [hrot, hspec]
                constructor
                · intro hc
                  cases hc
                · intro hc
                  cases hc
              · intro _ hsm
                rw [hsmiss] at hsm
                cases hsm
              · intro _ _ _
                refine ⟨_, _, _, hrot, ⟨{ found with revoked := true }, ?_, hfh, rfl⟩,
                  ⟨⟨user_id,
                     hash_token (create_refresh_token (pyStr payload.sub) now none),
                     now + refreshTtl, false⟩, ?_, rfl, rfl⟩⟩
                · simp only []
                  rw [hupd]
                  exact List.mem_append.mpr (Or.inl
                    (List.mem_append.mpr (Or.inr (List.mem_cons_self _ _))))
                · simp only []
                  exact List.mem_append.mpr (Or.inr (List.mem_cons_self _ _))
              · intro _ _ hcol2
                cases hcol2

/-- Witness for the amended C2: over `exDb` at time 50 the failure
condition is false, the decoded `sub` is present, there is no hash
collision, and rotation succeeds, revoking the old record and
persisting the fresh token's hash. -/
theorem rotate_outcome_characterisation_witness :
    ∃ db2 a2 r2, refresh_access_token exDb exTok 50 = RotateResult.ok db2 a2 r2 ∧
      (∃ x ∈ db2.refresh_tokens, x.token_hash = hash_token exTok ∧ x.revoked = true) ∧
      (∃ x ∈ db2.refresh_tokens, x.token_hash = hash_token r2 ∧ x.revoked = false) :=
  (rotate_outcome_characterisation exDb exTok 50 (by decide)).2.2.1
    (by decide) (by decide) (by decide)

/-- Counterexample to C2 as stated: two inputs on which none of the
claim's failure conditions holds, yet rotation does not succeed.  Over
`exDbCollide` the refresh token freshly minted at time 50 hashes to a
stored record's hash, so the insert violates the unique index on
`token_hash` and `commit` raises (`fatal`), returning no token pair.
Over `exDbNoSub` the token `exTokNoSub` has no `sub` claim, so the
insert puts NULL into the NOT NULL `user_id` column and `commit`
raises as well. -/
theorem rotate_not_always_ok_cex :
    refresh_access_token exDbCollide exTok 50 = RotateResult.fatal
  ∧ rotateRejectSpec exDbCollide exTok 50 = false
  ∧ freshCollision exDbCollide exTok 50 = true
  ∧ refresh_access_token exDbNoSub exTokNoSub 0 = RotateResult.fatal
  ∧ rotateRejectSpec exDbNoSub exTokNoSub 0 = false := by
  refine ⟨?_, ?_, ?_, ?_, ?_⟩ <;> decide

end AuthBackend
